import Mathlib

/-!
# Verification of the tap-exacttarget data-extension sync engine

A shallow embedding of `tap_exacttarget/dao.py` and
`tap_exacttarget/endpoints/data_extensions.py`, together with proofs of the
frozen specification claims about them.

Conventions of the embedding:
* Python dictionaries are association lists (`List (κ × α)`) with Python's
  insertion semantics: `dictSet` replaces the value in place when the key is
  present and appends at the end otherwise; `dictGet` finds the first entry.
* Dates are `Nat` day ordinals (the proleptic Gregorian ordinal, as used by
  Python's `date.toordinal`); adding one day is `+ 1`.
* Remote calls are parameters: a row fetch is a function from the optional
  window filter to the list of rows the server returns.
* Helper modules of the repository that are not part of the two embedded
  source files (`tap_exacttarget.state`, `tap_exacttarget.pagination`,
  `tap_exacttarget.util`) are modelled from the specification; each such
  definition carries a doc comment saying so.
-/

/-- Python-dict lookup on an association list: first entry with the key. -/
def dictGet {κ α : Type} [DecidableEq κ] (es : List (κ × α)) (k : κ) : Option α :=
  match es with
  | [] => none
  | (k', v) :: rest => if k' = k then some v else dictGet rest k

/-- Python-dict assignment `d[k] = v`: replace in place when present,
append at the end otherwise. -/
def dictSet {κ α : Type} [DecidableEq κ] (es : List (κ × α)) (k : κ) (v : α) :
    List (κ × α) :=
  match es with
  | [] => [(k, v)]
  | (k', v') :: rest => if k' = k then (k, v) :: rest else (k', v') :: dictSet rest k v

/-- The keys of an association list, in insertion order. -/
def dictKeys {κ α : Type} (es : List (κ × α)) : List κ :=
  es.map Prod.fst

theorem dictGet_dictSet_self {κ α : Type} [DecidableEq κ]
    (es : List (κ × α)) (k : κ) (v : α) :
    dictGet (dictSet es k v) k = some v := by
  induction es with
  | nil => simp [dictGet, dictSet]
  | cons p rest ih =>
    obtain ⟨k', v'⟩ := p
    by_cases h : k' = k <;> simp [dictGet, dictSet, h, ih]

theorem dictGet_dictSet_other {κ α : Type} [DecidableEq κ]
    (es : List (κ × α)) (k k' : κ) (v : α) (h : k' ≠ k) :
    dictGet (dictSet es k v) k' = dictGet es k' := by
  induction es with
  | nil => simp [dictGet, dictSet, Ne.symm h]
  | cons p rest ih =>
    obtain ⟨k₀, v₀⟩ := p
    by_cases h0 : k₀ = k
    · subst h0
      simp [dictGet, dictSet, Ne.symm h]
    · simp [dictGet, dictSet, h0, ih]

theorem dictKeys_dictSet {κ α : Type} [DecidableEq κ]
    (es : List (κ × α)) (k : κ) (v : α) :
    dictKeys (dictSet es k v) =
      if k ∈ dictKeys es then dictKeys es else dictKeys es ++ [k] := by
  induction es with
  | nil => simp [dictKeys, dictSet]
  | cons p rest ih =>
    obtain ⟨k', v'⟩ := p
    simp only [dictKeys, List.map_cons] at ih ⊢
    by_cases h : k' = k
    · subst h
      simp [dictSet]
    · simp only [dictSet, if_neg h, List.map_cons, ih, List.mem_cons]
      by_cases hm : k ∈ rest.map Prod.fst
      · simp [hm, Ne.symm h]
      · simp [hm, Ne.symm h]

theorem dictKeys_nodup_dictSet {κ α : Type} [DecidableEq κ]
    (es : List (κ × α)) (k : κ) (v : α) (h : (dictKeys es).Nodup) :
    (dictKeys (dictSet es k v)).Nodup := by
  rw [dictKeys_dictSet]
  by_cases hm : k ∈ dictKeys es
  · simpa [hm] using h
  · simp only [hm, if_false]
    simpa [List.nodup_append] using ⟨h, hm⟩

/-- `optOr a b` is `a` when `a` is `some`, else `b` (first-biased choice). -/
def optOr {α : Type} (a b : Option α) : Option α :=
  match a with
  | some x => some x
  | none => b

theorem optOr_none {α : Type} (b : Option α) : optOr none b = b := rfl

theorem optOr_some {α : Type} (x : α) (b : Option α) : optOr (some x) b = some x := rfl

/-- Closed form for folding Python-dict assignments over a pair list: the
lookup of `k` is the value of the last pair with name `k`, defaulting to the
initial dictionary's entry. -/
theorem dictGet_foldl_dictSet {κ α : Type} [DecidableEq κ]
    (l : List (κ × α)) (init : List (κ × α)) (k : κ) :
    dictGet (l.foldl (fun acc p => dictSet acc p.1 p.2) init) k =
      optOr (((l.filter (fun p => p.1 = k)).getLast?).map Prod.snd) (dictGet init k) := by
  induction l generalizing init with
  | nil => simp [optOr]
  | cons p rest ih =>
    obtain ⟨k₀, v₀⟩ := p
    by_cases h : k₀ = k
    · subst h
      rw [List.foldl_cons, ih, List.filter_cons, if_pos (by simp)]
      rcases hlast : (rest.filter (fun p => p.1 = k₀)).getLast? with _ | q
      · rw [List.getLast?_eq_none_iff] at hlast
        simp [hlast, optOr, dictGet_dictSet_self]
      · have hcons : ((k₀, v₀) :: rest.filter (fun p => p.1 = k₀)).getLast? = some q := by
          rcases hmt : rest.filter (fun p => p.1 = k₀) with _ | ⟨a, b⟩
          · rw [hmt] at hlast; simp at hlast
          · rw [hmt, List.getLast?_cons_cons, ← hmt, hlast]
        rw [hcons, hlast]
        rcases hq : dictGet init k₀ <;> simp [optOr]
    · rw [List.foldl_cons, ih, List.filter_cons, if_neg (by simp [h]),
        dictGet_dictSet_other _ _ _ _ (Ne.symm h)]

theorem getLast?_cons_of_getLast? {α : Type} (x q : α) (l : List α)
    (h : l.getLast? = some q) : (x :: l).getLast? = some q := by
  rcases l with _ | ⟨a, b⟩
  · simp at h
  · rw [List.getLast?_cons_cons, h]

/-! ## TypeMapper

`_convert_extension_datatype` from
`tap_exacttarget/endpoints/data_extensions.py` (lines 21-27). -/

/-- Source: `_convert_extension_datatype(datatype)` — maps the remote field's
declared type to the schema type string (`'bool'`, `'number'` or `'string'`,
the code's spellings of the abstract boolean/number/string types). -/
def _convert_extension_datatype (datatype : String) : String :=
  if datatype ∈ ["Boolean"] then "bool"
  else if datatype ∈ ["Decimal", "Number"] then "number"
  else "string"

/-- C5: the type mapper is a total pure function on declared-type strings:
`"Boolean"` maps to the code's boolean type, `"Decimal"` and `"Number"` map to
number, and every other input maps to string; its range is exactly these three
abstract types, with no error path. -/
theorem c5_type_mapper_total :
    (∀ d : String,
       _convert_extension_datatype d = "bool" ∨
       _convert_extension_datatype d = "number" ∨
       _convert_extension_datatype d = "string") ∧
    _convert_extension_datatype "Boolean" = "bool" ∧
    _convert_extension_datatype "Decimal" = "number" ∧
    _convert_extension_datatype "Number" = "number" ∧
    (∀ d : String, d ∉ (["Boolean", "Decimal", "Number"] : List String) →
       _convert_extension_datatype d = "string") := by
  refine ⟨?_, rfl, rfl, rfl, ?_⟩
  · intro d
    unfold _convert_extension_datatype
    split
    · exact Or.inl rfl
    · split
      · exact Or.inr (Or.inl rfl)
      · exact Or.inr (Or.inr rfl)
  · intro d hd
    simp only [List.mem_cons, not_or] at hd
    unfold _convert_extension_datatype
    rw [if_neg (by simp [hd.1]), if_neg (by simp [hd.2.1, hd.2.2.1])]

/-- Witness for C5 at the unknown declared type `"Widget"`. -/
theorem c5_type_mapper_total_witness :
    "Widget" ∉ (["Boolean", "Decimal", "Number"] : List String) ∧
    _convert_extension_datatype "Widget" = "string" :=
  ⟨by decide, c5_type_mapper_total.2.2.2.2 "Widget" (by decide)⟩

/-! ## Rows and the record projection

`DataExtensionDataAccessObject.parse_object` (data_extensions.py lines 138-145)
and `DataAccessObject.filter_keys_and_parse` (dao.py lines 36-39). -/

/-- A data-extension row as returned by the remote API: the list of
Name/Value property pairs found under `Properties.Property`. -/
abbrev Row := List (String × Nat)

/-- Modelled from the spec: `tap_exacttarget.util.sudsobj_to_dict` (module not
under src/) converts a remote API object into a plain dictionary; rows of this
embedding are already plain property lists, so the conversion is the
identity. -/
def sudsobj_to_dict (row : Row) : Row := row

/-- Source: `DataExtensionDataAccessObject.parse_object(obj)` — iterate the
row's property list and build a flat name-to-value dictionary (a later
property with the same name overwrites an earlier one). -/
def DataExtensionDataAccessObject.parse_object (row : Row) : Row :=
  row.foldl (fun acc p => dictSet acc p.1 p.2) []

/-- Source: `DataAccessObject.filter_keys_and_parse(obj)` as dispatched for a
data-extension stream: `sudsobj_to_dict` followed by the overriding
`parse_object` above.  Note that the override takes no field selection. -/
def DataExtensionDataAccessObject.filter_keys_and_parse (row : Row) : Row :=
  DataExtensionDataAccessObject.parse_object (sudsobj_to_dict row)

/-- Formalisation of the spec's claim side for C4 (spec section 4.4): a flat
name-to-value record extracted from the row's property list and restricted to
the selected field names.  To be compared with the source's
`filter_keys_and_parse`. -/
def RecordProjector.project (row : Row) (selected : List String) : Row :=
  selected.filterMap (fun k =>
    (dictGet (DataExtensionDataAccessObject.parse_object row) k).map (fun v => (k, v)))

/-- C4 counterexample: on the row with properties A:1, B:2, C:3 and the
selected set containing only A and C, the projection the code actually applies
to data-extension rows keeps B:2, a name outside the selected set, so it is
not the claimed restriction (which would give exactly A:1, C:3). -/
theorem c4_counterexample :
    DataExtensionDataAccessObject.filter_keys_and_parse [("A", 1), ("B", 2), ("C", 3)] ≠
      RecordProjector.project [("A", 1), ("B", 2), ("C", 3)] ["A", "C"] ∧
    RecordProjector.project [("A", 1), ("B", 2), ("C", 3)] ["A", "C"] =
      [("A", 1), ("C", 3)] ∧
    ("B", 2) ∈ DataExtensionDataAccessObject.filter_keys_and_parse
      [("A", 1), ("B", 2), ("C", 3)] ∧
    "B" ∉ (["A", "C"] : List String) := by
  refine ⟨?_, by decide, by decide, by decide⟩
  decide

theorem optOr_none_right {α : Type} (a : Option α) : optOr a none = a := by
  cases a <;> rfl

/-- C4 amended: the projection applied to data-extension rows flattens the
row's full property list into a name-to-value record — the value recorded for
a name is the value of the row's last property with that name, independent of
any selected-field set — so on the example row the result keeps all of A, B
and C.  (Restriction to selected fields happens upstream: the row request only
asks the server for the selected property names.) -/
theorem c4_flatten_keeps_all_names :
    (∀ (row : Row) (k : String),
       dictGet (DataExtensionDataAccessObject.filter_keys_and_parse row) k =
         ((row.filter (fun p => p.1 = k)).getLast?).map Prod.snd) ∧
    DataExtensionDataAccessObject.filter_keys_and_parse [("A", 1), ("B", 2), ("C", 3)] =
      [("A", 1), ("B", 2), ("C", 3)] := by
  refine ⟨?_, by decide⟩
  intro row k
  unfold DataExtensionDataAccessObject.filter_keys_and_parse
    DataExtensionDataAccessObject.parse_object sudsobj_to_dict
  rw [dictGet_foldl_dictSet]
  simp [dictGet, optOr_none_right]

/-! ## Replication-key resolution

The candidate loop of `DataExtensionDataAccessObject.sync_data`
(data_extensions.py lines 201-204):

    for key in config.get('data_extensions', {}).get('replication_keys', ['ModifiedDate']):
        if key in keys:
            replication_key = key

The loop body has no break, so every matching candidate overwrites the
previous one. -/

/-- Source: the replication-key resolution loop — fold the configured
candidates in order, keeping the latest candidate present in `keys`. -/
def resolve_replication_key (candidates keys : List String) : Option String :=
  candidates.foldl (fun acc key => if key ∈ keys then some key else acc) none

/-- Formalisation of the spec's claim side for C3: the first configured
candidate that is present in the catalog's field names. -/
def first_present_candidate (candidates keys : List String) : Option String :=
  (candidates.filter (fun k => k ∈ keys)).head?

/-- C3 counterexample: with ordered candidates A, B both present in the
catalog's field names, the code resolves B (the last match), not A (the first)
as the claim states. -/
theorem c3_counterexample :
    resolve_replication_key ["A", "B"] ["x", "A", "B"] ≠
      first_present_candidate ["A", "B"] ["x", "A", "B"] ∧
    resolve_replication_key ["A", "B"] ["x", "A", "B"] = some "B" ∧
    first_present_candidate ["A", "B"] ["x", "A", "B"] = some "A" := by
  refine ⟨?_, by decide, by decide⟩
  decide

theorem resolve_replication_key_foldl (candidates keys : List String)
    (acc : Option String) :
    candidates.foldl (fun acc key => if key ∈ keys then some key else acc) acc =
      optOr (candidates.filter (fun k => k ∈ keys)).getLast? acc := by
  induction candidates generalizing acc with
  | nil => simp [optOr]
  | cons c rest ih =>
    by_cases h : c ∈ keys
    · rw [List.foldl_cons, if_pos h, ih, List.filter_cons, if_pos (by simp [h])]
      rcases hlast : (rest.filter (fun k => decide (k ∈ keys))).getLast? with _ | q
      · rw [List.getLast?_eq_none_iff] at hlast
        simp [hlast, optOr]
      · rw [getLast?_cons_of_getLast? _ _ _ hlast]
        rfl
    · rw [List.foldl_cons, if_neg h, ih, List.filter_cons, if_neg (by simp [h])]

/-- C3 amended: the replication key resolved by sync_data is the last
candidate, in the configured order, that is present in the catalog field-name
list (the loop has no break, so later matches overwrite earlier ones); it is
absent exactly when no candidate is present. -/
theorem c3_resolves_last_candidate (candidates keys : List String) :
    resolve_replication_key candidates keys =
      (candidates.filter (fun k => k ∈ keys)).getLast? ∧
    (resolve_replication_key candidates keys = none ↔
      ∀ c ∈ candidates, c ∉ keys) := by
  have h := resolve_replication_key_foldl candidates keys none
  rw [optOr_none_right] at h
  refine ⟨h, ?_⟩
  rw [resolve_replication_key, h, List.getLast?_eq_none_iff, List.filter_eq_nil_iff]
  simp

/-! ## JSON-like values and the funcy path operations

The catalog that `_get_extensions` and `_get_fields`
(data_extensions.py lines 56-128) build is a nested Python structure of
dictionaries, lists and scalars; `JVal` embeds it.  `update_in`/`set_in` are
the funcy path operations the source uses.  An `Option` result models the
possibility of a Python exception: `none` is a raise. -/

inductive JVal where
  | null : JVal
  | str (s : String) : JVal
  | int (n : Nat) : JVal
  | bool (b : Bool) : JVal
  | list (items : List JVal) : JVal
  | dict (entries : List (String × JVal)) : JVal

/-- Modelled from the spec (funcy, a third-party dependency whose source is
not in the repository): `funcy.update_in(coll, path, update)` walks the string
path through nested dictionaries, creating an empty dictionary for a missing
intermediate key and Python `None` for a missing final key — per spec section
4.2, missing intermediate structure is created on demand, not an error.  A
non-dictionary met along the path is an error (`none`).  The update function
itself may also fail (`none`). -/
def update_in (coll : JVal) (path : List String) (upd : JVal → Option JVal) :
    Option JVal :=
  match path with
  | [] => upd coll
  | k :: rest =>
    match coll with
    | JVal.dict es =>
      let sub := match dictGet es k with
        | some v => v
        | none => if rest.isEmpty then JVal.null else JVal.dict []
      match update_in sub rest upd with
      | some sub' => some (JVal.dict (dictSet es k sub'))
      | none => none
    | _ => none

/-- Modelled from the spec: `funcy.set_in(coll, path, value)` is `update_in`
with a constant update. -/
def set_in (coll : JVal) (path : List String) (value : JVal) : Option JVal :=
  update_in coll path (fun _ => some value)

/-- Modelled from the spec: `funcy.merge(x, [new_item])` as `_merge_in` uses
it — appending one item to a list; a missing current value (Python `None`)
yields the one-element list (spec section 4.2: created on demand); merging
into any other shape is an error. -/
def merge_with_item (x : JVal) (item : JVal) : Option JVal :=
  match x with
  | JVal.null => some (JVal.list [item])
  | JVal.list l => some (JVal.list (l ++ [item]))
  | _ => none

/-- Source: `_merge_in(collection, path, new_item)` (data_extensions.py lines
17-18): `update_in(collection, path, lambda x: merge(x, [new_item]))`. -/
def _merge_in (collection : JVal) (path : List String) (new_item : JVal) :
    Option JVal :=
  update_in collection path (fun x => merge_with_item x new_item)

/-- An extension as returned by the `DataExtension` listing: its display name
and customer key. -/
structure ExtensionRec where
  Name : String
  CustomerKey : String
deriving DecidableEq

/-- A field as returned by the `DataExtensionField` listing, after
`sudsobj_to_dict`: the owning extension's customer key, the field name, the
primary-key flag, the declared type and the description. -/
structure FieldRec where
  extensionCustomerKey : String
  Name : String
  IsPrimaryKey : Bool
  FieldType : String
  Description : String
deriving DecidableEq

/-- The catalog entry `_get_extensions` seeds for one extension
(data_extensions.py lines 69-92). -/
def extension_entry (name ck : String) : JVal :=
  JVal.dict [
    ("tap_stream_id", JVal.str ("data_extension." ++ ck)),
    ("stream", JVal.str ("data_extension." ++ name)),
    ("key_properties", JVal.list [JVal.str "_CustomObjectKey"]),
    ("schema", JVal.dict [
      ("type", JVal.str "object"),
      ("inclusion", JVal.str "available"),
      ("selected", JVal.bool false),
      ("properties", JVal.dict [
        ("_CustomObjectKey", JVal.dict [
          ("type", JVal.str "string"),
          ("description", JVal.str
            "Hidden auto-incrementing primary key for data extension rows.")]),
        ("CategoryID", JVal.dict [
          ("type", JVal.str "integer"),
          ("description", JVal.str
            "Specifies the identifier of the folder. (Taken from the parent data extension.)")])])]),
    ("replication_key", JVal.str "ModifiedDate")]

/-- Source: `DataExtensionDataAccessObject._get_extensions` (lines 56-94):
one dictionary entry per extension, keyed by customer key (a later extension
with the same customer key overwrites the earlier entry, as for a Python
dict). -/
def _get_extensions (result : List ExtensionRec) : List (String × JVal) :=
  result.foldl
    (fun acc e => dictSet acc e.CustomerKey (extension_entry e.Name e.CustomerKey)) []

/-- The per-field schema `_get_fields` merges in (lines 115-121). -/
def field_schema (f : FieldRec) : JVal :=
  JVal.dict [
    ("type", JVal.list [JVal.str "null",
      JVal.str (_convert_extension_datatype f.FieldType)]),
    ("description", JVal.str f.Description)]

/-- One iteration of the field loop of
`DataExtensionDataAccessObject._get_fields` (lines 104-126): merge the field
name into the owning entry's key-properties list when the field is flagged
primary key, then set the field's schema at the entry's
schema/properties/name path. -/
def process_field (to_return : JVal) (f : FieldRec) : Option JVal :=
  match (if f.IsPrimaryKey then
      _merge_in to_return [f.extensionCustomerKey, "key_properties"]
        (JVal.str f.Name)
    else some to_return) with
  | none => none
  | some t1 =>
    set_in t1 [f.extensionCustomerKey, "schema", "properties", f.Name]
      (field_schema f)

/-- Source: `DataExtensionDataAccessObject._get_fields` (lines 96-128): fold
the field listing over the seeded extension catalog. -/
def _get_fields (extensions : List (String × JVal)) (result : List FieldRec) :
    Option JVal :=
  result.foldlM process_field (JVal.dict extensions)

/-- Chained dictionary lookup along a path. -/
def getPath (v : JVal) (path : List String) : Option JVal :=
  match path with
  | [] => some v
  | k :: rest =>
    match v with
    | JVal.dict es =>
      match dictGet es k with
      | some sub => getPath sub rest
      | none => none
    | _ => none

/-- The field schema recorded in the catalog for extension `ck`, field name
`fname`. -/
def fieldSchemaAt (cat : JVal) (ck fname : String) : Option JVal :=
  getPath cat [ck, "schema", "properties", fname]

/-- Structural invariant of a catalog entry: a dictionary whose
`key_properties`, when present, is a list, and whose `schema`, when present,
is a dictionary whose `properties`, when present, is a dictionary. -/
def entryOK : JVal → Bool
  | JVal.dict es =>
    (match dictGet es "key_properties" with
     | none => true
     | some (JVal.list _) => true
     | some _ => false) &&
    (match dictGet es "schema" with
     | none => true
     | some (JVal.dict ss) =>
       (match dictGet ss "properties" with
        | none => true
        | some (JVal.dict _) => true
        | some _ => false)
     | some _ => false)
  | _ => false

/-- Structural invariant of the whole catalog: a dictionary of well-formed
entries. -/
def catOK : JVal → Bool
  | JVal.dict es => es.all (fun p => entryOK p.2)
  | _ => false

theorem dictGet_eq_none_iff {κ α : Type} [DecidableEq κ] (es : List (κ × α)) (k : κ) :
    dictGet es k = none ↔ k ∉ dictKeys es := by
  induction es with
  | nil => simp [dictGet, dictKeys]
  | cons p rest ih =>
    obtain ⟨k', v'⟩ := p
    by_cases h : k' = k
    · subst h
      simp [dictGet, dictKeys]
    · simp [dictGet, dictKeys, h, Ne.symm h] at ih ⊢
      exact ih

theorem dictGet_mem {κ α : Type} [DecidableEq κ] (es : List (κ × α)) (k : κ) (v : α)
    (h : dictGet es k = some v) : (k, v) ∈ es := by
  induction es with
  | nil => simp [dictGet] at h
  | cons p rest ih =>
    obtain ⟨k', v'⟩ := p
    simp only [dictGet] at h
    by_cases hk : k' = k
    · rw [if_pos hk] at h
      injection h with h
      rw [← hk, ← h]
      exact List.mem_cons_self _ _
    · rw [if_neg hk] at h
      exact List.mem_cons_of_mem _ (ih h)

theorem mem_dictKeys_of_dictGet {κ α : Type} [DecidableEq κ] (es : List (κ × α))
    (k : κ) (v : α) (h : dictGet es k = some v) : k ∈ dictKeys es := by
  have := dictGet_mem es k v h
  exact List.mem_map_of_mem Prod.fst this

theorem mem_dictSet {κ α : Type} [DecidableEq κ] (es : List (κ × α)) (k : κ) (v : α)
    (p : κ × α) (h : p ∈ dictSet es k v) : p = (k, v) ∨ p ∈ es := by
  induction es with
  | nil => simpa [dictSet] using h
  | cons q rest ih =>
    obtain ⟨k', v'⟩ := q
    simp only [dictSet] at h
    by_cases hk : k' = k
    · rw [if_pos hk] at h
      rcases List.mem_cons.mp h with h | h
      · exact Or.inl h
      · exact Or.inr (List.mem_cons_of_mem _ h)
    · rw [if_neg hk] at h
      rcases List.mem_cons.mp h with h | h
      · exact Or.inr (List.mem_cons.mpr (Or.inl h))
      · rcases ih h with h | h
        · exact Or.inl h
        · exact Or.inr (List.mem_cons_of_mem _ h)

theorem catOK_dictGet (es : List (String × JVal)) (ck : String) (v : JVal)
    (h : catOK (JVal.dict es) = true) (hget : dictGet es ck = some v) :
    entryOK v = true := by
  simp only [catOK, List.all_eq_true] at h
  exact h (ck, v) (dictGet_mem es ck v hget)

theorem catOK_dictSet (es : List (String × JVal)) (k : String) (v : JVal)
    (hall : catOK (JVal.dict es) = true) (hv : entryOK v = true) :
    catOK (JVal.dict (dictSet es k v)) = true := by
  simp only [catOK, List.all_eq_true] at hall ⊢
  intro p hp
  rcases mem_dictSet _ _ _ _ hp with h | h
  · rw [h]
    exact hv
  · exact hall p h

theorem mem_dictKeys_dictSet_self {κ α : Type} [DecidableEq κ]
    (es : List (κ × α)) (k : κ) (v : α) : k ∈ dictKeys (dictSet es k v) := by
  rw [dictKeys_dictSet]
  by_cases hm : k ∈ dictKeys es <;> simp [hm]

theorem mem_dictKeys_dictSet_of_mem {κ α : Type} [DecidableEq κ]
    (es : List (κ × α)) (k k' : κ) (v : α) (h : k' ∈ dictKeys es) :
    k' ∈ dictKeys (dictSet es k v) := by
  rw [dictKeys_dictSet]
  by_cases hm : k ∈ dictKeys es <;> simp [hm, h]

theorem update_in_cons_dict (es : List (String × JVal)) (k k₁ : String)
    (rest : List String) (upd : JVal → Option JVal) :
    update_in (JVal.dict es) (k :: k₁ :: rest) upd =
      match update_in
          (match dictGet es k with
           | some v => v
           | none => JVal.dict []) (k₁ :: rest) upd with
      | some sub' => some (JVal.dict (dictSet es k sub'))
      | none => none := by
  rfl

theorem update_in_single_dict (es : List (String × JVal)) (k : String)
    (upd : JVal → Option JVal) :
    update_in (JVal.dict es) [k] upd =
      match upd
          (match dictGet es k with
           | some v => v
           | none => JVal.null) with
      | some s' => some (JVal.dict (dictSet es k s'))
      | none => none := by
  rfl

theorem kp_set_preserves (es es₂ : List (String × JVal)) (ck : String) (L : List JVal)
    (h : catOK (JVal.dict es) = true) (hent : dictGet es ck = some (JVal.dict es₂)) :
    catOK (JVal.dict (dictSet es ck
        (JVal.dict (dictSet es₂ "key_properties" (JVal.list L))))) = true ∧
    (∀ ck' n', fieldSchemaAt (JVal.dict (dictSet es ck
        (JVal.dict (dictSet es₂ "key_properties" (JVal.list L))))) ck' n' =
      fieldSchemaAt (JVal.dict es) ck' n') ∧
    dictKeys (dictSet es ck
        (JVal.dict (dictSet es₂ "key_properties" (JVal.list L)))) = dictKeys es := by
  have hOK := catOK_dictGet es ck _ h hent
  simp only [entryOK, Bool.and_eq_true] at hOK
  obtain ⟨-, hB⟩ := hOK
  have hso : dictGet (dictSet es₂ "key_properties" (JVal.list L)) "schema" =
      dictGet es₂ "schema" :=
    dictGet_dictSet_other _ _ _ _ (by decide)
  refine ⟨?_, ?_, ?_⟩
  · refine catOK_dictSet _ _ _ h ?_
    simp only [entryOK, Bool.and_eq_true, dictGet_dictSet_self, hso]
    exact ⟨trivial, hB⟩
  · intro ck' n'
    by_cases hc : ck' = ck
    · subst hc
      simp only [fieldSchemaAt, getPath, dictGet_dictSet_self, hent, hso]
    · simp only [fieldSchemaAt, getPath, dictGet_dictSet_other _ _ _ _ hc]
  · rw [dictKeys_dictSet, if_pos (mem_dictKeys_of_dictGet _ _ _ hent)]

theorem merge_in_kp_char (es : List (String × JVal)) (ck : String) (item : JVal)
    (h : catOK (JVal.dict es) = true) :
    ∃ es', _merge_in (JVal.dict es) [ck, "key_properties"] item =
        some (JVal.dict es') ∧
      catOK (JVal.dict es') = true ∧
      (∀ ck' n', fieldSchemaAt (JVal.dict es') ck' n' =
        fieldSchemaAt (JVal.dict es) ck' n') ∧
      dictKeys es' =
        (if ck ∈ dictKeys es then dictKeys es else dictKeys es ++ [ck]) := by
  rw [_merge_in, update_in_cons_dict]
  rcases hent : dictGet es ck with _ | entry
  · -- no entry seeded for this customer key: one is created on demand
    refine ⟨dictSet es ck (JVal.dict [("key_properties", JVal.list [item])]),
      rfl, ?_, ?_, ?_⟩
    · exact catOK_dictSet _ _ _ h rfl
    · intro ck' n'
      by_cases hc : ck' = ck
      · subst hc
        simp only [fieldSchemaAt, getPath, dictGet_dictSet_self, hent]
        rfl
      · simp only [fieldSchemaAt, getPath, dictGet_dictSet_other _ _ _ _ hc]
    · rw [dictKeys_dictSet,
        if_neg ((dictGet_eq_none_iff es ck).mp hent)]
  · have hOK := catOK_dictGet es ck _ h hent
    rcases entry with _ | s | m | b | l | es₂ <;> try simp [entryOK] at hOK
    have hkp := hOK
    simp only [entryOK, Bool.and_eq_true] at hkp
    obtain ⟨hA, -⟩ := hkp
    rcases hkp0 : dictGet es₂ "key_properties" with _ | kpv
    · -- entry present, no key_properties yet: created as a fresh list
      rw [update_in_single_dict, hkp0]
      have hres := kp_set_preserves es es₂ ck [item] h hent
      refine ⟨dictSet es ck (JVal.dict
        (dictSet es₂ "key_properties" (JVal.list [item]))), rfl,
        hres.1, hres.2.1, ?_⟩
      rw [hres.2.2, if_pos (mem_dictKeys_of_dictGet _ _ _ hent)]
    · rw [hkp0] at hA
      rcases kpv with _ | s | m | b | l | d <;> try simp at hA
      -- entry present with a key_properties list: the item is appended
      rw [update_in_single_dict, hkp0]
      have hres := kp_set_preserves es es₂ ck (l ++ [item]) h hent
      refine ⟨dictSet es ck (JVal.dict
        (dictSet es₂ "key_properties" (JVal.list (l ++ [item])))), rfl,
        hres.1, hres.2.1, ?_⟩
      rw [hres.2.2, if_pos (mem_dictKeys_of_dictGet _ _ _ hent)]

theorem set_in_entry_char (es₂ : List (String × JVal)) (n : String) (sch : JVal)
    (hok : entryOK (JVal.dict es₂) = true) :
    ∃ es₂', update_in (JVal.dict es₂) ["schema", "properties", n]
        (fun _ => some sch) = some (JVal.dict es₂') ∧
      entryOK (JVal.dict es₂') = true ∧
      (∀ n', getPath (JVal.dict es₂') ["schema", "properties", n'] =
        if n' = n then some sch
        else getPath (JVal.dict es₂) ["schema", "properties", n']) := by
  simp only [entryOK, Bool.and_eq_true] at hok
  obtain ⟨hkp, hsch⟩ := hok
  rw [update_in_cons_dict]
  rcases hs : dictGet es₂ "schema" with _ | s
  · -- no schema yet: schema, properties and the field entry are all created
    refine ⟨dictSet es₂ "schema"
        (JVal.dict [("properties", JVal.dict [(n, sch)])]), rfl, ?_, ?_⟩
    · simp only [entryOK, Bool.and_eq_true, dictGet_dictSet_self,
        dictGet_dictSet_other _ _ _ _ (show "key_properties" ≠ "schema" by decide)]
      exact ⟨hkp, by rfl⟩
    · intro n'
      simp only [getPath, dictGet_dictSet_self, hs]
      by_cases hn : n' = n
      · subst hn
        simp [dictGet]
      · simp [dictGet, hn, Ne.symm hn]
  · rw [hs] at hsch
    rcases s with _ | s | m | b | l | ss <;> try simp at hsch
    rw [update_in_cons_dict]
    rcases hp : dictGet ss "properties" with _ | p
    · -- schema present, no properties yet: created with the one field
      refine ⟨dictSet es₂ "schema"
          (JVal.dict (dictSet ss "properties" (JVal.dict [(n, sch)]))), rfl, ?_, ?_⟩
      · simp only [entryOK, Bool.and_eq_true, dictGet_dictSet_self,
          dictGet_dictSet_other _ _ _ _ (show "key_properties" ≠ "schema" by decide)]
        exact ⟨hkp, by trivial⟩
      · intro n'
        simp only [getPath, dictGet_dictSet_self, hs, hp]
        by_cases hn : n' = n
        · subst hn
          simp [dictGet]
        · simp [dictGet, hn, Ne.symm hn]
    · rw [hp] at hsch
      rcases p with _ | s | m | b | l | ps <;> try simp at hsch
      -- schema and properties both present: the field is set inside them
      refine ⟨dictSet es₂ "schema"
          (JVal.dict (dictSet ss "properties" (JVal.dict (dictSet ps n sch)))),
        rfl, ?_, ?_⟩
      · simp only [entryOK, Bool.and_eq_true, dictGet_dictSet_self,
          dictGet_dictSet_other _ _ _ _ (show "key_properties" ≠ "schema" by decide)]
        exact ⟨hkp, by trivial⟩
      · intro n'
        simp only [getPath, dictGet_dictSet_self, hs, hp]
        by_cases hn : n' = n
        · subst hn
          simp [dictGet_dictSet_self]
        · simp [dictGet_dictSet_other _ _ _ _ hn, hn, Ne.symm hn]

theorem set_in_schema_char (es : List (String × JVal)) (ck n : String) (sch : JVal)
    (h : catOK (JVal.dict es) = true) :
    ∃ es', set_in (JVal.dict es) [ck, "schema", "properties", n] sch =
        some (JVal.dict es') ∧
      catOK (JVal.dict es') = true ∧
      (∀ ck' n', fieldSchemaAt (JVal.dict es') ck' n' =
        if ck' = ck ∧ n' = n then some sch
        else fieldSchemaAt (JVal.dict es) ck' n') ∧
      dictKeys es' =
        (if ck ∈ dictKeys es then dictKeys es else dictKeys es ++ [ck]) := by
  rw [set_in, update_in_cons_dict]
  rcases hent : dictGet es ck with _ | entry
  · -- the customer key has no entry: one is created on demand
    obtain ⟨es₂', heq, hok', hpath⟩ := set_in_entry_char [] n sch (by rfl)
    rw [heq]
    refine ⟨dictSet es ck (JVal.dict es₂'), rfl, catOK_dictSet _ _ _ h hok', ?_, ?_⟩
    · intro ck' n'
      by_cases hc : ck' = ck
      · subst hc
        have hl : fieldSchemaAt (JVal.dict (dictSet es ck' (JVal.dict es₂'))) ck' n' =
            getPath (JVal.dict es₂') ["schema", "properties", n'] := by
          simp only [fieldSchemaAt, getPath, dictGet_dictSet_self]
        rw [hl, hpath n']
        by_cases hn : n' = n
        · simp [hn]
        · simp only [hn, if_false, and_false, if_false]
          simp [fieldSchemaAt, getPath, hent, dictGet]
      · simp only [fieldSchemaAt, getPath, dictGet_dictSet_other _ _ _ _ hc]
        simp [hc]
    · rw [dictKeys_dictSet, if_neg ((dictGet_eq_none_iff es ck).mp hent)]
  · have hOK := catOK_dictGet es ck _ h hent
    rcases entry with _ | s | m | b | l | es₂
    · simp [entryOK] at hOK
    · simp [entryOK] at hOK
    · simp [entryOK] at hOK
    · simp [entryOK] at hOK
    · simp [entryOK] at hOK
    obtain ⟨es₂', heq, hok', hpath⟩ := set_in_entry_char es₂ n sch hOK
    rw [heq]
    refine ⟨dictSet es ck (JVal.dict es₂'), rfl, catOK_dictSet _ _ _ h hok', ?_, ?_⟩
    · intro ck' n'
      by_cases hc : ck' = ck
      · subst hc
        have hl : fieldSchemaAt (JVal.dict (dictSet es ck' (JVal.dict es₂'))) ck' n' =
            getPath (JVal.dict es₂') ["schema", "properties", n'] := by
          simp only [fieldSchemaAt, getPath, dictGet_dictSet_self]
        have hr : fieldSchemaAt (JVal.dict es) ck' n' =
            getPath (JVal.dict es₂) ["schema", "properties", n'] := by
          simp only [fieldSchemaAt, getPath, hent]
        rw [hl, hr, hpath n']
        by_cases hn : n' = n
        · simp [hn]
        · simp [hn]
      · simp only [fieldSchemaAt, getPath, dictGet_dictSet_other _ _ _ _ hc]
        simp [hc]
    · rw [dictKeys_dictSet, if_pos (mem_dictKeys_of_dictGet _ _ _ hent)]

theorem process_field_char (es : List (String × JVal)) (f : FieldRec)
    (h : catOK (JVal.dict es) = true) :
    ∃ es', process_field (JVal.dict es) f = some (JVal.dict es') ∧
      catOK (JVal.dict es') = true ∧
      (∀ ck n, fieldSchemaAt (JVal.dict es') ck n =
        if ck = f.extensionCustomerKey ∧ n = f.Name then some (field_schema f)
        else fieldSchemaAt (JVal.dict es) ck n) ∧
      dictKeys es' =
        (if f.extensionCustomerKey ∈ dictKeys es then dictKeys es
         else dictKeys es ++ [f.extensionCustomerKey]) := by
  rw [process_field]
  by_cases hpk : f.IsPrimaryKey = true
  · rw [if_pos hpk]
    obtain ⟨es₁, heq₁, hok₁, hpath₁, hkeys₁⟩ :=
      merge_in_kp_char es f.extensionCustomerKey (JVal.str f.Name) h
    rw [heq₁]
    obtain ⟨es₂, heq₂, hok₂, hpath₂, hkeys₂⟩ :=
      set_in_schema_char es₁ f.extensionCustomerKey f.Name (field_schema f) hok₁
    refine ⟨es₂, heq₂, hok₂, ?_, ?_⟩
    · intro ck n
      rw [hpath₂ ck n]
      by_cases hc : ck = f.extensionCustomerKey ∧ n = f.Name
      · simp [hc]
      · simp only [if_neg hc]
        exact hpath₁ ck n
    · rw [hkeys₂, hkeys₁]
      by_cases hm : f.extensionCustomerKey ∈ dictKeys es
      · simp [hm]
      · simp [hm]
  · rw [if_neg hpk]
    obtain ⟨es', heq, hok', hpath, hkeys⟩ :=
      set_in_schema_char es f.extensionCustomerKey f.Name (field_schema f) h
    exact ⟨es', heq, hok', hpath, hkeys⟩

theorem entryOK_extension_entry (name ck : String) :
    entryOK (extension_entry name ck) = true := rfl

theorem nodup_keys_extend {κ : Type} [DecidableEq κ] (l : List κ) (k : κ)
    (h : l.Nodup) : (if k ∈ l then l else l ++ [k]).Nodup := by
  by_cases hm : k ∈ l
  · simpa [hm] using h
  · simp only [hm, if_false]
    simpa [List.nodup_append] using ⟨h, hm⟩

theorem mem_keys_extend {κ : Type} [DecidableEq κ] (l : List κ) (k k' : κ)
    (h : k' ∈ l) : k' ∈ (if k ∈ l then l else l ++ [k]) := by
  by_cases hm : k ∈ l <;> simp [hm, h]

theorem get_extensions_aux (exts : List ExtensionRec) (acc : List (String × JVal))
    (h1 : catOK (JVal.dict acc) = true) (h2 : (dictKeys acc).Nodup) :
    catOK (JVal.dict (exts.foldl (fun acc e =>
        dictSet acc e.CustomerKey (extension_entry e.Name e.CustomerKey)) acc)) = true ∧
    (dictKeys (exts.foldl (fun acc e =>
        dictSet acc e.CustomerKey (extension_entry e.Name e.CustomerKey)) acc)).Nodup ∧
    (∀ k, k ∈ dictKeys acc → k ∈ dictKeys (exts.foldl (fun acc e =>
        dictSet acc e.CustomerKey (extension_entry e.Name e.CustomerKey)) acc)) ∧
    (∀ e ∈ exts, e.CustomerKey ∈ dictKeys (exts.foldl (fun acc e =>
        dictSet acc e.CustomerKey (extension_entry e.Name e.CustomerKey)) acc)) := by
  induction exts generalizing acc with
  | nil => exact ⟨h1, h2, fun k hk => hk, by simp⟩
  | cons e rest ih =>
    simp only [List.foldl_cons]
    have h1' : catOK (JVal.dict (dictSet acc e.CustomerKey
        (extension_entry e.Name e.CustomerKey))) = true :=
      catOK_dictSet _ _ _ h1 (entryOK_extension_entry _ _)
    have h2' := dictKeys_nodup_dictSet acc e.CustomerKey
      (extension_entry e.Name e.CustomerKey) h2
    obtain ⟨g1, g2, g3, g4⟩ := ih _ h1' h2'
    refine ⟨g1, g2, ?_, ?_⟩
    · intro k hk
      exact g3 k (mem_dictKeys_dictSet_of_mem _ _ _ _ hk)
    · intro e' he'
      rcases List.mem_cons.mp he' with he' | he'
      · exact he' ▸ g3 _ (mem_dictKeys_dictSet_self _ _ _)
      · exact g4 e' he'

/-- Characterisation of `_get_extensions`: the seeded catalog is well-formed,
its keys have no duplicates, and every discovered extension has an entry. -/
theorem get_extensions_char (exts : List ExtensionRec) :
    catOK (JVal.dict (_get_extensions exts)) = true ∧
    (dictKeys (_get_extensions exts)).Nodup ∧
    ∀ e ∈ exts, e.CustomerKey ∈ dictKeys (_get_extensions exts) := by
  obtain ⟨g1, g2, -, g4⟩ := get_extensions_aux exts [] rfl List.nodup_nil
  exact ⟨g1, g2, g4⟩

/-- Characterisation of the field-merge fold: starting from a well-formed
catalog it never fails, preserves well-formedness, the final field schema of
`(ck, n)` is the schema of the last merged field with that owner and name
(defaulting to the initial catalog's), keys stay duplicate-free and old keys
survive. -/
theorem get_fields_fold_char (fields : List FieldRec) (es : List (String × JVal))
    (h : catOK (JVal.dict es) = true) :
    ∃ es', List.foldlM process_field (JVal.dict es) fields = some (JVal.dict es') ∧
      catOK (JVal.dict es') = true ∧
      (∀ ck n, fieldSchemaAt (JVal.dict es') ck n =
        optOr (((fields.filter (fun g =>
            g.extensionCustomerKey = ck ∧ g.Name = n)).getLast?).map field_schema)
          (fieldSchemaAt (JVal.dict es) ck n)) ∧
      ((dictKeys es).Nodup → (dictKeys es').Nodup) ∧
      (∀ k, k ∈ dictKeys es → k ∈ dictKeys es') := by
  induction fields generalizing es with
  | nil =>
    refine ⟨es, rfl, h, ?_, fun hh => hh, fun k hk => hk⟩
    intro ck n
    simp [optOr]
  | cons f rest ih =>
    obtain ⟨es₁, heq₁, hok₁, hpath₁, hkeys₁⟩ := process_field_char es f h
    obtain ⟨es', heqr, hokr, hpathr, hndr, hmemr⟩ := ih es₁ hok₁
    refine ⟨es', ?_, hokr, ?_, ?_, ?_⟩
    · rw [List.foldlM_cons, heq₁]
      exact heqr
    · intro ck n
      rw [hpathr ck n, List.filter_cons]
      by_cases hm : f.extensionCustomerKey = ck ∧ f.Name = n
      · rw [if_pos (by simpa using hm)]
        have hbase : fieldSchemaAt (JVal.dict es₁) ck n = some (field_schema f) := by
          rw [hpath₁ ck n, if_pos ⟨hm.1.symm, hm.2.symm⟩]
        rw [hbase]
        rcases hf : rest.filter (fun g => g.extensionCustomerKey = ck ∧ g.Name = n)
          with _ | ⟨a, t⟩
        · rw [hf]
          rfl
        · rw [hf, List.getLast?_cons_cons]
          rcases hq : (a :: t).getLast? with _ | q
          · simp at hq
          · rfl
      · rw [if_neg (by simpa using hm)]
        have hbase : fieldSchemaAt (JVal.dict es₁) ck n = fieldSchemaAt (JVal.dict es) ck n := by
          rw [hpath₁ ck n, if_neg (fun hc => hm ⟨hc.1.symm, hc.2.symm⟩)]
        rw [hbase]
    · intro hnd
      refine hndr ?_
      rw [hkeys₁]
      exact nodup_keys_extend _ _ hnd
    · intro k hk
      refine hmemr k ?_
      rw [hkeys₁]
      exact mem_keys_extend _ _ _ hk

theorem perm_eq_of_length_le_one {α : Type} (l1 l2 : List α)
    (h : l1.Perm l2) (hl : l1.length ≤ 1) : l1 = l2 := by
  rcases l1 with _ | ⟨a, t⟩
  · exact h.nil_eq
  · have ht : t = [] := by
      rcases t with _ | _
      · rfl
      · simp at hl
    subst ht
    have hlen := h.length_eq
    rcases l2 with _ | ⟨b, u⟩
    · simp at hlen
    · have hu : u = [] := by
        rcases u with _ | _
        · rfl
        · simp at hlen
      subst hu
      have hab : a = b := by
        have := h.mem_iff.mp (List.mem_singleton_self a)
        simpa using this
      rw [hab]

theorem filter_keymatch_length_le_one (l : List FieldRec) (ck n : String)
    (hnd : (l.map (fun f => (f.extensionCustomerKey, f.Name))).Nodup) :
    (l.filter (fun g => g.extensionCustomerKey = ck ∧ g.Name = n)).length ≤ 1 := by
  induction l with
  | nil => simp
  | cons f t ih =>
    simp only [List.map_cons, List.nodup_cons] at hnd
    obtain ⟨hf, ht⟩ := hnd
    rw [List.filter_cons]
    by_cases hp : f.extensionCustomerKey = ck ∧ f.Name = n
    · rw [if_pos (by simpa using hp)]
      have hrest : t.filter (fun g => g.extensionCustomerKey = ck ∧ g.Name = n) = [] := by
        rw [List.filter_eq_nil_iff]
        intro g hg hgp
        simp only [decide_eq_true_eq] at hgp
        apply hf
        have hkey : (g.extensionCustomerKey, g.Name) =
            (f.extensionCustomerKey, f.Name) := by
          rw [hgp.1, hgp.2, hp.1, hp.2]
        rw [← hkey]
        exact List.mem_map_of_mem _ hg
      rw [hrest]
      simp
    · rw [if_neg (by simpa using hp)]
      exact ih ht

/-- C8 counterexample: two discovered fields sharing an owner and a name but
with different descriptions.  Swapping the merge order is a permutation, yet
the final field schema mapping differs (last write wins), so order-independence
does not hold for every field sequence as the claim states. -/
theorem c8_counterexample :
    ([⟨"CK", "F", false, "Number", "dA"⟩, ⟨"CK", "F", false, "Number", "dB"⟩] :
        List FieldRec).Perm
      [⟨"CK", "F", false, "Number", "dB"⟩, ⟨"CK", "F", false, "Number", "dA"⟩] ∧
    (_get_fields (_get_extensions [])
        [⟨"CK", "F", false, "Number", "dA"⟩, ⟨"CK", "F", false, "Number", "dB"⟩]).map
      (fun c => fieldSchemaAt c "CK" "F") =
      some (some (field_schema ⟨"CK", "F", false, "Number", "dB"⟩)) ∧
    (_get_fields (_get_extensions [])
        [⟨"CK", "F", false, "Number", "dB"⟩, ⟨"CK", "F", false, "Number", "dA"⟩]).map
      (fun c => fieldSchemaAt c "CK" "F") =
      some (some (field_schema ⟨"CK", "F", false, "Number", "dA"⟩)) ∧
    field_schema (⟨"CK", "F", false, "Number", "dA"⟩ : FieldRec) ≠
      field_schema ⟨"CK", "F", false, "Number", "dB"⟩ := by
  refine ⟨List.Perm.swap _ _ _, rfl, rfl, ?_⟩
  simp [field_schema]

/-- C8 (amended): for every sequence of discovered extensions and every
sequence of discovered fields with no two fields sharing (customer key, name)
— the case the spec calls unexpected, where last-write-wins makes the order
observable — the two-phase discovery succeeds, the catalog keys contain no
duplicates with exactly one entry per discovered extension's customer key, and
any permutation of the field-merge order yields an identical field schema
mapping for every entry. -/
theorem c8_catalog_build (exts : List ExtensionRec) (fields1 fields2 : List FieldRec)
    (hperm : fields1.Perm fields2)
    (hnd : (fields1.map (fun f => (f.extensionCustomerKey, f.Name))).Nodup) :
    ∃ es1 es2,
      _get_fields (_get_extensions exts) fields1 = some (JVal.dict es1) ∧
      _get_fields (_get_extensions exts) fields2 = some (JVal.dict es2) ∧
      (dictKeys es1).Nodup ∧
      (∀ e ∈ exts, e.CustomerKey ∈ dictKeys es1) ∧
      (∀ ck n, fieldSchemaAt (JVal.dict es1) ck n =
        fieldSchemaAt (JVal.dict es2) ck n) := by
  obtain ⟨hok, hnodup, hmem⟩ := get_extensions_char exts
  obtain ⟨es1, he1, ho1, hp1, hn1, hm1⟩ :=
    get_fields_fold_char fields1 (_get_extensions exts) hok
  obtain ⟨es2, he2, ho2, hp2, hn2, hm2⟩ :=
    get_fields_fold_char fields2 (_get_extensions exts) hok
  refine ⟨es1, es2, he1, he2, hn1 hnodup, fun e he => hm1 _ (hmem e he), ?_⟩
  intro ck n
  rw [hp1 ck n, hp2 ck n]
  have hfeq : fields1.filter (fun g => g.extensionCustomerKey = ck ∧ g.Name = n) =
      fields2.filter (fun g => g.extensionCustomerKey = ck ∧ g.Name = n) :=
    perm_eq_of_length_le_one _ _ (hperm.filter _)
      (filter_keymatch_length_le_one _ ck n hnd)
  rw [hfeq]

/-- Witness for C8 at a concrete extension with two distinct fields, merged in
both orders. -/
theorem c8_catalog_build_witness :
    ([⟨"CK", "A", false, "Number", "d"⟩, ⟨"CK", "B", true, "Boolean", "e"⟩] :
        List FieldRec).Perm
      [⟨"CK", "B", true, "Boolean", "e"⟩, ⟨"CK", "A", false, "Number", "d"⟩] ∧
    (([⟨"CK", "A", false, "Number", "d"⟩, ⟨"CK", "B", true, "Boolean", "e"⟩] :
        List FieldRec).map (fun f => (f.extensionCustomerKey, f.Name))).Nodup ∧
    ∃ es1 es2,
      _get_fields (_get_extensions [⟨"ext", "CK"⟩])
        [⟨"CK", "A", false, "Number", "d"⟩, ⟨"CK", "B", true, "Boolean", "e"⟩] =
        some (JVal.dict es1) ∧
      _get_fields (_get_extensions [⟨"ext", "CK"⟩])
        [⟨"CK", "B", true, "Boolean", "e"⟩, ⟨"CK", "A", false, "Number", "d"⟩] =
        some (JVal.dict es2) ∧
      (dictKeys es1).Nodup ∧
      (∀ e ∈ ([⟨"ext", "CK"⟩] : List ExtensionRec),
        e.CustomerKey ∈ dictKeys es1) ∧
      (∀ ck n, fieldSchemaAt (JVal.dict es1) ck n =
        fieldSchemaAt (JVal.dict es2) ck n) :=
  ⟨List.Perm.swap _ _ _, by decide,
    c8_catalog_build [⟨"ext", "CK"⟩]
      [⟨"CK", "A", false, "Number", "d"⟩, ⟨"CK", "B", true, "Boolean", "e"⟩]
      [⟨"CK", "B", true, "Boolean", "e"⟩, ⟨"CK", "A", false, "Number", "d"⟩]
      (List.Perm.swap _ _ _) (by decide)⟩

/-- C9: merging a discovered field into a structurally well-formed catalog
never fails: for every field — in particular one whose customer key has no
entry (the entry is created on demand) and one whose entry has no field
mapping yet (schema and properties are created on demand) — the merge returns
a catalog holding the field's schema at the entry's properties path. -/
theorem c9_merge_never_raises (cat : JVal) (f : FieldRec) (h : catOK cat = true) :
    ∃ cat', process_field cat f = some cat' ∧ catOK cat' = true ∧
      fieldSchemaAt cat' f.extensionCustomerKey f.Name = some (field_schema f) := by
  rcases cat with _ | s | m | b | l | es
  · simp [catOK] at h
  · simp [catOK] at h
  · simp [catOK] at h
  · simp [catOK] at h
  · simp [catOK] at h
  · obtain ⟨es', heq, hok, hpath, -⟩ := process_field_char es f h
    refine ⟨JVal.dict es', heq, hok, ?_⟩
    rw [hpath]
    simp

/-- Witness for C9: an orphan primary-key field merged into the empty catalog
(no entry was seeded for its customer key in phase 1). -/
theorem c9_merge_never_raises_witness :
    catOK (JVal.dict []) = true ∧
    ∃ cat', process_field (JVal.dict [])
        ⟨"orphanCK", "Fld", true, "Number", "d"⟩ = some cat' ∧
      catOK cat' = true ∧
      fieldSchemaAt cat' "orphanCK" "Fld" =
        some (field_schema ⟨"orphanCK", "Fld", true, "Number", "d"⟩) :=
  ⟨by decide, c9_merge_never_raises (JVal.dict [])
    ⟨"orphanCK", "Fld", true, "Number", "d"⟩ (by decide)⟩

/-! ## Replication state, events and the windowed sync loop

`DataExtensionDataAccessObject._replicate` and `sync_data`
(data_extensions.py lines 147-249) and `DataAccessObject.sync`
(dao.py lines 54-66). -/

/-- The tap's replication state: bookmarks keyed by (stream, bookmark key). -/
abbrev TapState := List ((String × String) × Nat)

/-- The committed bookmark of a stream under a replication-key name. -/
def getBookmark (st : TapState) (table field : String) : Option Nat :=
  dictGet st (table, field)

/-- Modelled from the spec: `tap_exacttarget.state.incorporate` (module not
under src/) — `set(stream, key, value)` stores the value at the (stream, key)
bookmark (spec section 4.3: the component itself does not enforce
monotonicity); an absent value (Python `None`, e.g. `row.get(None)` or a row
without the replication key) leaves the state unchanged (spec section 8,
property 4: no-replication-key runs leave the state unmodified). -/
def incorporate (st : TapState) (table : String) (field : Option String)
    (value : Option Nat) : TapState :=
  match value with
  | none => st
  | some v =>
    match field with
    | some f => dictSet st (table, f) v
    | none => st

/-- Modelled from the spec: `tap_exacttarget.pagination.before_today` (module
not under src/) — whether the date is strictly before "today" in the
configured clock (spec section 3, Window); the clock is an explicit
parameter. -/
def before_today (date today : Nat) : Bool :=
  decide (date < today)

/-- Modelled from the spec: `tap_exacttarget.pagination.increment_date`
(module not under src/) — `end = start + unit` on day ordinals (spec
section 3, Window). -/
def increment_date (date unit : Nat) : Nat :=
  date + unit

/-- The observable actions of a sync, in emission order.  `extFetch` is the
parent-extension lookup, `fetch` a row request carrying its window filter
(the window start for a windowed request, none for an unfiltered one),
`record`/`save` carry the window filter of the `_replicate` call that emitted
them. -/
inductive Event where
  | schema (stream : String) : Event
  | extFetch (customerKey : String) : Event
  | fetch (filter : Option Nat) : Event
  | record (filter : Option Nat) (stream : String) (row : Row) : Event
  | save (filter : Option Nat) (st : TapState) : Event
deriving DecidableEq

/-- `row.get(replication_key)` where the key may be Python `None`. -/
def getRowValue (row : Row) (field : Option String) : Option Nat :=
  match field with
  | some f => dictGet row f
  | none => none

/-- The per-row processing of `_replicate` (lines 168-169): project the row
and attach the parent's `CategoryID`. -/
def projected_row (parent_category_id : Nat) (row : Row) : Row :=
  dictSet (DataExtensionDataAccessObject.filter_keys_and_parse row)
    "CategoryID" parent_category_id

/-- Source: `DataExtensionDataAccessObject._replicate` (lines 147-184).
`fetch` abstracts `request_from_cursor` on a cursor whose props are `keys`
and whose search filter is the window `[start, start+unit)` when windowed
(`partial=True` in the source) and absent otherwise.  Every row is projected,
tagged with the category id, incorporated into the state under the
replication key, and emitted; a windowed call then commits the bookmark at
`start` and persists the state. -/
def _replicate (fetch : List String → Option Nat → List Row)
    (keys : List String) (table : String) (parent_category_id : Nat)
    (windowed : Bool) (start : Nat) (replication_key : Option String)
    (st : TapState) : TapState × List Event :=
  let filt := if windowed then some start else none
  let result := fetch keys filt
  let folded := result.foldl (fun acc row =>
      (incorporate acc.1 table replication_key
         (getRowValue (projected_row parent_category_id row) replication_key),
       acc.2 ++ [Event.record filt table (projected_row parent_category_id row)]))
    (st, [Event.fetch filt])
  if windowed then
    let st2 := incorporate folded.1 table replication_key (some start)
    (st2, folded.2 ++ [Event.save filt st2])
  else folded

/-- The configuration sync_data consumes: the ordered replication-key
candidates (default ModifiedDate) and the window unit in days (default one);
the unit is positive in every configuration the loop terminates on. -/
structure SyncConfig where
  replication_keys : List String := ["ModifiedDate"]
  unit : Nat := 1
  unit_pos : 0 < unit := by decide

/-- Source: the while loop of `DataExtensionDataAccessObject.sync_data`
(lines 227-249): while the window start is before today or no replication key
exists, replicate one window (windowed exactly when a replication key
exists); without a replication key return right after the single pass;
otherwise commit the bookmark at the window start, persist, and advance
`start = end`. -/
def sync_loop (fetch : List String → Option Nat → List Row)
    (keys : List String) (table : String) (parent_category_id : Nat)
    (replication_key : Option String) (today unit : Nat) (hu : 0 < unit)
    (st : TapState) (start : Nat) : TapState × List Event :=
  if h : before_today start today = true ∨ replication_key = none then
    let p := _replicate fetch keys table parent_category_id
      replication_key.isSome start replication_key st
    if h2 : replication_key = none then p
    else
      let st2 := incorporate p.1 table replication_key (some start)
      let q := sync_loop fetch keys table parent_category_id replication_key
        today unit hu st2 (increment_date start unit)
      (q.1, p.2 ++ [Event.save (some start) st2] ++ q.2)
  else (st, [])
termination_by today - start
decreasing_by
  simp only [before_today, decide_eq_true_eq] at h
  rcases h with h | h
  · simp only [increment_date]
    omega
  · exact absurd h h2

/-- Python `list.remove(x)`: deletes the first occurrence of `x`, raising
`ValueError` (`none`) when `x` is absent from the list. -/
def list_remove (l : List String) (x : String) : Option (List String) :=
  if x ∈ l then some (l.erase x) else none

/-- Source: `DataExtensionDataAccessObject.sync_data` (lines 186-249).
`start` is the resolved start date (the stream's bookmark if present, else
the configured default start date — resolution is upstream of the loop);
`parent_category_id` is the category id returned by the parent-extension
lookup, recorded as the `extFetch` event.  The customer key is the
tap_stream_id after its first dot.  `keys.remove('CategoryID')` raises when
the catalog lacks a `CategoryID` key: the first component is then `none`
(uncaught exception, no final state) and the trace holds the events emitted
before the raise — nothing, since the raise precedes every remote call.
Otherwise the replication key is resolved from the configured candidates
against the remaining keys and the window loop runs. -/
def sync_data (fetch : List String → Option Nat → List Row) (cfg : SyncConfig)
    (tap_stream_id table : String) (catalogKeys : List String)
    (parent_category_id : Nat) (today start : Nat)
    (st : TapState) : Option TapState × List Event :=
  let customer_key := String.intercalate "." ((tap_stream_id.splitOn ".").drop 1)
  match list_remove catalogKeys "CategoryID" with
  | none => (none, [])
  | some keys =>
    let replication_key := resolve_replication_key cfg.replication_keys keys
    let p := sync_loop fetch keys table parent_category_id replication_key
      today cfg.unit cfg.unit_pos st start
    (some p.1, Event.extFetch customer_key :: p.2)

/-- Source: `DataAccessObject.sync` (dao.py lines 54-66) for a data-extension
stream: an unselected stream is skipped (only logged); a selected one gets
its schema written and then `sync_data` run.  The schema event precedes
`sync_data`, so it is in the trace even when `sync_data` raises. -/
def DataAccessObject.sync (selected : Bool)
    (fetch : List String → Option Nat → List Row) (cfg : SyncConfig)
    (tap_stream_id table : String) (catalogKeys : List String)
    (parent_category_id : Nat) (today start : Nat)
    (st : TapState) : Option TapState × List Event :=
  if selected then
    let p := sync_data fetch cfg tap_stream_id table catalogKeys
      parent_category_id today start st
    (p.1, Event.schema table :: p.2)
  else (some st, [])

theorem sync_loop_none_eq (fetch : List String → Option Nat → List Row)
    (keys : List String) (table : String) (cid : Nat) (today unit : Nat)
    (hu : 0 < unit) (st : TapState) (start : Nat) :
    sync_loop fetch keys table cid none today unit hu st start =
      _replicate fetch keys table cid false start none st := by
  rw [sync_loop]
  simp

theorem sync_loop_some_stop (fetch : List String → Option Nat → List Row)
    (keys : List String) (table : String) (cid : Nat) (k : String)
    (today unit : Nat) (hu : 0 < unit) (st : TapState) (start : Nat)
    (h : ¬ start < today) :
    sync_loop fetch keys table cid (some k) today unit hu st start = (st, []) := by
  rw [sync_loop]
  simp [before_today, h]

theorem sync_loop_some_step (fetch : List String → Option Nat → List Row)
    (keys : List String) (table : String) (cid : Nat) (k : String)
    (today unit : Nat) (hu : 0 < unit) (st : TapState) (start : Nat)
    (h : start < today) :
    sync_loop fetch keys table cid (some k) today unit hu st start =
      ((sync_loop fetch keys table cid (some k) today unit hu
          (incorporate (_replicate fetch keys table cid true start (some k) st).1
            table (some k) (some start))
          (increment_date start unit)).1,
        (_replicate fetch keys table cid true start (some k) st).2 ++
          [Event.save (some start)
            (incorporate (_replicate fetch keys table cid true start (some k) st).1
              table (some k) (some start))] ++
          (sync_loop fetch keys table cid (some k) today unit hu
            (incorporate (_replicate fetch keys table cid true start (some k) st).1
              table (some k) (some start))
            (increment_date start unit)).2) := by
  rw [sync_loop]
  simp [before_today, h]

theorem foldl_trace_snd {β : Type} (rows : List β)
    (step1 : TapState × List Event → β → TapState)
    (step2 : β → Event) (st : TapState) (evs : List Event) :
    (rows.foldl (fun acc row => (step1 acc row, acc.2 ++ [step2 row])) (st, evs)).2 =
      evs ++ rows.map step2 := by
  induction rows generalizing st evs with
  | nil => simp
  | cons r rest ih => simp [ih]

theorem foldl_trace_fst_const {β : Type} (rows : List β)
    (step1 : TapState × List Event → β → TapState)
    (step2 : β → Event) (st : TapState) (evs : List Event)
    (hconst : ∀ acc row, step1 acc row = acc.1) :
    (rows.foldl (fun acc row => (step1 acc row, acc.2 ++ [step2 row])) (st, evs)).1 =
      st := by
  induction rows generalizing st evs with
  | nil => rfl
  | cons r rest ih =>
    have hstep : (List.foldl (fun acc row => (step1 acc row, acc.2 ++ [step2 row]))
          (st, evs) (r :: rest)).1 =
        (List.foldl (fun acc row => (step1 acc row, acc.2 ++ [step2 row]))
          (step1 (st, evs) r, evs ++ [step2 r]) rest).1 := rfl
    rw [hstep, hconst]
    exact ih st (evs ++ [step2 r])

/-- The trace of a non-windowed `_replicate` call: one unfiltered fetch
followed by the records; no save, and the state comes out unchanged (without
a replication key every row's `incorporate` receives an absent value). -/
theorem replicate_full_eq (fetch : List String → Option Nat → List Row)
    (keys : List String) (table : String) (cid : Nat) (start : Nat)
    (st : TapState) :
    _replicate fetch keys table cid false start none st =
      (st, Event.fetch none :: (fetch keys none).map
        (fun row => Event.record none table (projected_row cid row))) := by
  unfold _replicate
  simp only [Bool.false_eq_true, if_false]
  refine Prod.ext ?_ ?_
  · rw [foldl_trace_fst_const]
    intro acc row
    rfl
  · rw [foldl_trace_snd]
    simp

/-- The trace of a windowed `_replicate` call: the filtered fetch, the
records, then the save persisting exactly the final state. -/
theorem replicate_windowed_trace (fetch : List String → Option Nat → List Row)
    (keys : List String) (table : String) (cid : Nat) (start : Nat)
    (rk : Option String) (st : TapState) :
    (_replicate fetch keys table cid true start rk st).2 =
      Event.fetch (some start) :: ((fetch keys (some start)).map
        (fun row => Event.record (some start) table (projected_row cid row)) ++
      [Event.save (some start) (_replicate fetch keys table cid true start rk st).1]) := by
  conv_lhs => unfold _replicate
  simp only [if_true]
  rw [foldl_trace_snd]
  simp only [List.cons_append, List.nil_append]
  congr 1

/-- C1: after the rows of a window `[start, start+unit)` have been exhausted,
the windowed `_replicate` commits the bookmark of (stream, replication key)
as the window's start — whatever replication-key values the rows carried, so
not the maximum observed value — and the save event persists exactly that
state.  (The loop in sync_data then repeats the same commit before moving to
the next window.) -/
theorem c1_commit_is_window_start (fetch : List String → Option Nat → List Row)
    (keys : List String) (table : String) (cid : Nat) (start : Nat)
    (k : String) (st : TapState) :
    getBookmark (_replicate fetch keys table cid true start (some k) st).1 table k =
      some start ∧
    Event.save (some start) (_replicate fetch keys table cid true start (some k) st).1 ∈
      (_replicate fetch keys table cid true start (some k) st).2 := by
  constructor
  · exact dictGet_dictSet_self _ _ _
  · rw [replicate_windowed_trace]
    exact List.mem_cons_of_mem _
      (List.mem_append_right _ (List.mem_singleton_self _))

/-- C10: syncing a catalog entry that is not marked selected is a no-op: no
schema message, no record, no fetch, and the replication state is returned
unchanged. -/
theorem c10_unselected_noop (fetch : List String → Option Nat → List Row)
    (cfg : SyncConfig) (tap_stream_id table : String)
    (catalogKeys : List String) (cid : Nat) (today start : Nat)
    (st : TapState) :
    DataAccessObject.sync false fetch cfg tap_stream_id table catalogKeys
      cid today start st = (some st, []) := rfl

/-- The window filters of the row-fetch events of a trace, in order. -/
def fetch_filters (t : List Event) : List (Option Nat) :=
  t.filterMap (fun e => match e with
    | Event.fetch f => some f
    | _ => none)

/-- The save (state-persist) events of a trace. -/
def save_events (t : List Event) : List Event :=
  t.filter (fun e => match e with
    | Event.save _ _ => true
    | _ => false)

theorem filterMap_const_none {α β : Type} (l : List α) :
    l.filterMap (fun _ => (none : Option β)) = [] := by
  induction l with
  | nil => rfl
  | cons a t ih => simpa using ih

/-- `sync_data` on a catalog that does contain a `CategoryID` key (every
catalog the discovery produces does): the remove succeeds and deletes that
one key, so the run reaches the window loop. -/
theorem sync_data_eq (fetch : List String → Option Nat → List Row)
    (cfg : SyncConfig) (tap_stream_id table : String)
    (catalogKeys : List String) (cid : Nat) (today start : Nat) (st : TapState)
    (hmem : "CategoryID" ∈ catalogKeys) :
    sync_data fetch cfg tap_stream_id table catalogKeys cid today start st =
      (some (sync_loop fetch (catalogKeys.erase "CategoryID") table cid
          (resolve_replication_key cfg.replication_keys
            (catalogKeys.erase "CategoryID"))
          today cfg.unit cfg.unit_pos st start).1,
        Event.extFetch (String.intercalate "." ((tap_stream_id.splitOn ".").drop 1)) ::
          (sync_loop fetch (catalogKeys.erase "CategoryID") table cid
            (resolve_replication_key cfg.replication_keys
              (catalogKeys.erase "CategoryID"))
            today cfg.unit cfg.unit_pos st start).2) := by
  unfold sync_data list_remove
  rw [if_pos hmem]

/-- `sync_data` on a catalog with no `CategoryID` key:
`keys.remove('CategoryID')` raises `ValueError` before any remote call, so
there is no final state and no event at all. -/
theorem sync_data_raises (fetch : List String → Option Nat → List Row)
    (cfg : SyncConfig) (tap_stream_id table : String)
    (catalogKeys : List String) (cid : Nat) (today start : Nat) (st : TapState)
    (hmem : "CategoryID" ∉ catalogKeys) :
    sync_data fetch cfg tap_stream_id table catalogKeys cid today start st =
      (none, []) := by
  unfold sync_data list_remove
  rw [if_neg hmem]

theorem fetch_filters_replicate_windowed (fetch : List String → Option Nat → List Row)
    (keys : List String) (table : String) (cid : Nat) (start : Nat)
    (rk : Option String) (st : TapState) :
    fetch_filters (_replicate fetch keys table cid true start rk st).2 =
      [some start] := by
  rw [replicate_windowed_trace]
  simp [fetch_filters, List.filterMap_cons, List.filterMap_append,
    List.filterMap_map, Function.comp, filterMap_const_none]

/-- C6: on a catalog carrying the `CategoryID` key (so that the key removal
succeeds and replication-key resolution is reached — every catalog the
discovery produces is of this shape), when no replication key is resolved
sync_data performs exactly one row fetch, unfiltered, regardless of the
start date and of today's date; it returns right after it, no state persist
happens, and the replication state is returned unmodified. -/
theorem c6_no_replication_key (fetch : List String → Option Nat → List Row)
    (cfg : SyncConfig) (tap_stream_id table : String)
    (catalogKeys : List String) (cid : Nat) (today start : Nat) (st : TapState)
    (hcat : "CategoryID" ∈ catalogKeys)
    (hrk : resolve_replication_key cfg.replication_keys
      (catalogKeys.erase "CategoryID") = none) :
    (sync_data fetch cfg tap_stream_id table catalogKeys cid today start st).1 =
      some st ∧
    fetch_filters
      (sync_data fetch cfg tap_stream_id table catalogKeys cid today start st).2 =
      [none] ∧
    save_events
      (sync_data fetch cfg tap_stream_id table catalogKeys cid today start st).2 =
      [] := by
  rw [sync_data_eq fetch cfg tap_stream_id table catalogKeys cid today start
    st hcat, hrk, sync_loop_none_eq, replicate_full_eq]
  refine ⟨rfl, ?_, ?_⟩
  · simp [fetch_filters, List.filterMap_cons, List.filterMap_map,
      Function.comp, filterMap_const_none]
  · simp [save_events, List.filter_cons, List.filter_map, Function.comp]

/-- A concrete one-row server used by the C6 witness. -/
def c6_fetch : List String → Option Nat → List Row :=
  fun _ _ => [[("Other", 42)]]

/-- Witness for C6: a catalog that carries `CategoryID` but whose field
names contain no configured replication-key candidate, against a concrete
one-row server. -/
theorem c6_no_replication_key_witness :
    "CategoryID" ∈ (["_CustomObjectKey", "Other", "CategoryID"] : List String) ∧
    resolve_replication_key (["ModifiedDate"] : List String)
      ((["_CustomObjectKey", "Other", "CategoryID"] : List String).erase
        "CategoryID") = none ∧
    ((sync_data c6_fetch ⟨["ModifiedDate"], 1, Nat.one_pos⟩ "data_extension.CK"
        "data_extension.ext" ["_CustomObjectKey", "Other", "CategoryID"]
        7 5 3 []).1 = some [] ∧
      fetch_filters (sync_data c6_fetch ⟨["ModifiedDate"], 1, Nat.one_pos⟩
        "data_extension.CK" "data_extension.ext"
        ["_CustomObjectKey", "Other", "CategoryID"] 7 5 3 []).2 = [none] ∧
      save_events (sync_data c6_fetch ⟨["ModifiedDate"], 1, Nat.one_pos⟩
        "data_extension.CK" "data_extension.ext"
        ["_CustomObjectKey", "Other", "CategoryID"] 7 5 3 []).2 = []) :=
  ⟨by decide, by decide,
    c6_no_replication_key c6_fetch ⟨["ModifiedDate"], 1, Nat.one_pos⟩
      "data_extension.CK" "data_extension.ext"
      ["_CustomObjectKey", "Other", "CategoryID"]
      7 5 3 [] (by decide) (by decide)⟩

/-- Day ordinal of 2021-01-01 (Python `date(2021,1,1).toordinal()`). -/
def date_2021_01_01 : Nat := 737791

/-- Day ordinal of 2021-01-02. -/
def date_2021_01_02 : Nat := 737792

/-- Day ordinal of 2021-01-03. -/
def date_2021_01_03 : Nat := 737793

/-- Day ordinal of 2021-01-04. -/
def date_2021_01_04 : Nat := 737794

/-- The configuration of the windowing scenario: the default candidate list
and a one-day window. -/
def c2_config : SyncConfig := ⟨["ModifiedDate"], 1, Nat.one_pos⟩

/-- C2: with a replication key present (ModifiedDate), start 2021-01-01,
unit one day and today 2021-01-04, sync_data issues exactly the three window
fetches [01-01,01-02), [01-02,01-03), [01-03,01-04) in that order (each
identified by its window-start filter), terminates, and the bookmark
committed at termination is 2021-01-03 — whatever rows the server returns. -/
theorem c2_windowing_scenario (fetch : List String → Option Nat → List Row) :
    fetch_filters (sync_data fetch c2_config "data_extension.CK"
        "data_extension.ext" ["_CustomObjectKey", "ModifiedDate", "CategoryID"]
        7 date_2021_01_04 date_2021_01_01 []).2 =
      [some date_2021_01_01, some date_2021_01_02, some date_2021_01_03] ∧
    ∃ st', (sync_data fetch c2_config "data_extension.CK"
        "data_extension.ext" ["_CustomObjectKey", "ModifiedDate", "CategoryID"]
        7 date_2021_01_04 date_2021_01_01 []).1 = some st' ∧
      getBookmark st' "data_extension.ext" "ModifiedDate" =
        some date_2021_01_03 := by
  have hrk : resolve_replication_key c2_config.replication_keys
      ((["_CustomObjectKey", "ModifiedDate", "CategoryID"] : List String).erase
        "CategoryID") = some "ModifiedDate" := by decide
  rw [sync_data_eq fetch c2_config "data_extension.CK" "data_extension.ext"
    ["_CustomObjectKey", "ModifiedDate", "CategoryID"] 7 date_2021_01_04
    date_2021_01_01 [] (by decide), hrk]
  rw [sync_loop_some_step fetch
    ((["_CustomObjectKey", "ModifiedDate", "CategoryID"] : List String).erase
      "CategoryID") "data_extension.ext" 7 "ModifiedDate" date_2021_01_04
    c2_config.unit c2_config.unit_pos [] date_2021_01_01 (by decide)]
  rw [show increment_date date_2021_01_01 c2_config.unit = date_2021_01_02
    from by decide]
  rw [sync_loop_some_step fetch
    ((["_CustomObjectKey", "ModifiedDate", "CategoryID"] : List String).erase
      "CategoryID") "data_extension.ext" 7 "ModifiedDate" date_2021_01_04
    c2_config.unit c2_config.unit_pos _ date_2021_01_02 (by decide)]
  rw [show increment_date date_2021_01_02 c2_config.unit = date_2021_01_03
    from by decide]
  rw [sync_loop_some_step fetch
    ((["_CustomObjectKey", "ModifiedDate", "CategoryID"] : List String).erase
      "CategoryID") "data_extension.ext" 7 "ModifiedDate" date_2021_01_04
    c2_config.unit c2_config.unit_pos _ date_2021_01_03 (by decide)]
  rw [show increment_date date_2021_01_03 c2_config.unit = date_2021_01_04
    from by decide]
  rw [sync_loop_some_stop fetch
    ((["_CustomObjectKey", "ModifiedDate", "CategoryID"] : List String).erase
      "CategoryID") "data_extension.ext" 7 "ModifiedDate" date_2021_01_04
    c2_config.unit c2_config.unit_pos _ date_2021_01_04 (by decide)]
  refine ⟨?_, ?_⟩
  · simp only [fetch_filters, List.filterMap_cons, List.filterMap_append,
      fetch_filters_replicate_windowed]
    rw [replicate_windowed_trace, replicate_windowed_trace, replicate_windowed_trace]
    simp [List.filterMap_cons, List.filterMap_append, List.filterMap_map,
      Function.comp_def, filterMap_const_none]
  · exact ⟨_, rfl, dictGet_dictSet_self _ _ _⟩

/-- Windows already saved while scanning a trace left to right. -/
def bump (seen : List Nat) : Event → List Nat
  | Event.save (some w) _ => w :: seen
  | _ => seen

/-- A record is admissible at a scan position when its window has not been
saved yet; every other event is always admissible. -/
def nras_ok (seen : List Nat) : Event → Bool
  | Event.record (some w) _ _ => decide (w ∉ seen)
  | _ => true

/-- Left-to-right scanning checker: true exactly when no record event of a
window occurs after a save event of the same window, i.e. every window's
state persist strictly follows all of that window's records. -/
def nras (seen : List Nat) : List Event → Bool
  | [] => true
  | e :: rest => nras_ok seen e && nras (bump seen e) rest

theorem nras_append (xs ys : List Event) (seen : List Nat) :
    nras seen (xs ++ ys) = (nras seen xs && nras (xs.foldl bump seen) ys) := by
  induction xs generalizing seen with
  | nil => simp [nras]
  | cons e t ih => simp [nras, ih, Bool.and_assoc]

theorem nras_records {β : Type} (rows : List β) (g : β → Row)
    (filt : Option Nat) (table : String) (tail : List Event) (seen : List Nat)
    (h : ∀ w, filt = some w → w ∉ seen) :
    nras seen ((rows.map (fun row => Event.record filt table (g row))) ++ tail) =
      nras seen tail := by
  induction rows with
  | nil => rfl
  | cons r t ih =>
    rcases filt with _ | w
    · simpa [nras, nras_ok, bump] using ih
    · have hw := h w rfl
      simp [nras, nras_ok, bump, hw, ih]

theorem bump_fold_records {β : Type} (rows : List β) (g : β → Row)
    (filt : Option Nat) (table : String) (seen : List Nat) :
    (rows.map (fun row => Event.record filt table (g row))).foldl bump seen =
      seen := by
  induction rows generalizing seen with
  | nil => rfl
  | cons r t ih => simp [bump, ih]

/-- Invariant proof for the windowed loop: scanning its trace with any set of
already-saved windows all strictly below the current start never sees a
record of an already-saved window. -/
theorem nras_sync_loop (fetch : List String → Option Nat → List Row)
    (keys : List String) (table : String) (cid : Nat) (k : String)
    (today unit : Nat) (hu : 0 < unit) :
    ∀ m st start seen, today - start = m → (∀ w ∈ seen, w < start) →
      nras seen (sync_loop fetch keys table cid (some k) today unit hu
        st start).2 = true := by
  intro m
  induction m using Nat.strong_induction_on with
  | _ m ih =>
    intro st start seen hm hseen
    by_cases h : start < today
    · rw [sync_loop_some_step fetch keys table cid k today unit hu st start h]
      rw [replicate_windowed_trace]
      simp only [List.cons_append, List.append_assoc]
      rw [nras]
      have hok : nras_ok seen (Event.fetch (some start)) = true := rfl
      rw [hok, Bool.true_and]
      have hbump : bump seen (Event.fetch (some start)) = seen := rfl
      rw [hbump]
      rw [nras_records _ _ _ _ _ _
        (fun w hw => by
          cases hw
          intro hmem
          exact absurd (hseen _ hmem) (lt_irrefl _))]
      rw [show increment_date start unit = start + unit from rfl]
      have hq := ih (today - (start + unit)) (by omega)
        (incorporate
          (_replicate fetch keys table cid true start (some k) st).1 table
          (some k) (some start))
        (start + unit) (start :: start :: seen) rfl
        (by
          intro w hw
          rcases List.mem_cons.mp hw with hw | hw
          · omega
          rcases List.mem_cons.mp hw with hw | hw
          · omega
          · have := hseen _ hw
            omega)
      simp only [List.nil_append, List.singleton_append, nras, nras_ok, bump,
        Bool.true_and]
      exact hq
    · rw [sync_loop_some_stop fetch keys table cid k today unit hu st start h]
      rfl

/-- C7: in a selected data-extension sync, the stream's schema message is the
very first emitted event — so it strictly precedes every record message —
and the left-to-right scan confirms that no record of a window is emitted
after that window's bookmark commit: durable state never advances ahead of
emitted data. -/
theorem c7_schema_first_and_saves_after_records
    (fetch : List String → Option Nat → List Row) (cfg : SyncConfig)
    (tap_stream_id table : String) (catalogKeys : List String) (cid : Nat)
    (today start : Nat) (st : TapState) :
    (DataAccessObject.sync true fetch cfg tap_stream_id table catalogKeys cid
        today start st).2.head? = some (Event.schema table) ∧
    nras [] (DataAccessObject.sync true fetch cfg tap_stream_id table
        catalogKeys cid today start st).2 = true := by
  constructor
  · rfl
  · have hs : (DataAccessObject.sync true fetch cfg tap_stream_id table
        catalogKeys cid today start st).2 =
      Event.schema table :: (sync_data fetch cfg tap_stream_id table
        catalogKeys cid today start st).2 := rfl
    by_cases hmem : "CategoryID" ∈ catalogKeys
    · have hred : nras [] (DataAccessObject.sync true fetch cfg tap_stream_id
          table catalogKeys cid today start st).2 =
        nras [] (sync_loop fetch (catalogKeys.erase "CategoryID") table cid
          (resolve_replication_key cfg.replication_keys
            (catalogKeys.erase "CategoryID"))
          today cfg.unit cfg.unit_pos st start).2 := by
        rw [hs, sync_data_eq fetch cfg tap_stream_id table catalogKeys cid
          today start st hmem]
        rfl
      rw [hred]
      rcases hrk : resolve_replication_key cfg.replication_keys
        (catalogKeys.erase "CategoryID") with _ | k
      · rw [sync_loop_none_eq, replicate_full_eq]
        rw [nras]
        have hok : nras_ok [] (Event.fetch none) = true := rfl
        rw [hok, Bool.true_and]
        have hbump : bump [] (Event.fetch none) = [] := rfl
        rw [hbump, ← List.append_nil (List.map _ _)]
        rw [nras_records _ _ _ _ _ _ (fun w hw => by cases hw)]
        rfl
      · exact nras_sync_loop fetch (catalogKeys.erase "CategoryID") table cid k
          today cfg.unit cfg.unit_pos (today - start) st start [] rfl
          (by intro w hw; cases hw)
    · rw [hs, sync_data_raises fetch cfg tap_stream_id table catalogKeys cid
        today start st hmem]
      rfl
